import Mathlib

/-!
Verification of the spatial-transformer / bounding-box core
(`utils/spatial_transform.py`).

The Python source is shallowly embedded over exact rationals: the pose
vector `z_where = (s, x, y)` becomes a `Pose` record, images become
functions from integer indices to rationals together with explicit shape
data, and every numpy/torch shape assertion becomes an `Except String`
error.  Python's `round` (ties to even) and Python's slice-index
resolution (negative indices count from the end of the axis) are modelled
exactly, since the box-drawing claims hinge on them.
-/

namespace STCore

/-- The pose `z_where = [s, x, y]`: uniform scale plus 2-D translation. -/
structure Pose where
  s : ℚ
  x : ℚ
  y : ℚ
deriving DecidableEq

/-- `torch.cat((zeros(bs,1), z_where), dim=1)`: the padded row `[0, s, x, y]`
(source line 68). -/
def paddedPose (z : Pose) : Fin 4 → ℚ := ![0, z.s, z.x, z.y]

/-- `expansion_indices = [1, 0, 2, 0, 1, 3]` (source line 69). -/
def expansionIndices : Fin 6 → Fin 4 := ![1, 0, 2, 0, 1, 3]

/-- `expand_z_where` (source lines 59-73): pad the pose with a zero, gather
with `expansion_indices`, and view the result as a 2x3 matrix. -/
def expand_z_where (z : Pose) : Fin 2 → Fin 3 → ℚ := fun r c =>
  paddedPose z (expansionIndices ⟨r.val * 3 + c.val, by omega⟩)

/-- `invert_z_where` (source lines 75-80): `(s, x, y) ↦ (1/s, -x/s, -y/s)`. -/
def invert_z_where (z : Pose) : Pose :=
  Pose.mk (1 / z.s) (-z.x / z.s) (-z.y / z.s)

/-- Composition of 2x3 affine matrices, viewing each as the top two rows of a
3x3 matrix whose last row is `(0, 0, 1)`. -/
def composeAffine (a b : Fin 2 → Fin 3 → ℚ) : Fin 2 → Fin 3 → ℚ := fun r c =>
  a r 0 * b 0 c + a r 1 * b 1 c + a r 2 * (if c.val = 2 then 1 else 0)

/-- The identity affine map as a 2x3 matrix. -/
def idAffine : Fin 2 → Fin 3 → ℚ := fun r c =>
  if r.val = c.val then 1 else 0

/-- Python 3 `int(round(t))`: round to nearest integer, ties to even
(the convention of both builtin `round` and `numpy.float64.__round__`). -/
def pyRound (q : ℚ) : ℤ :=
  if q - ⌊q⌋ < 1 / 2 then ⌊q⌋
  else if 1 / 2 < q - ⌊q⌋ then ⌊q⌋ + 1
  else if ⌊q⌋ % 2 = 0 then ⌊q⌋ else ⌊q⌋ + 1

/-- Python `sorted` on a two-element tuple. -/
def pySort2 (a b : ℚ) : ℚ × ℚ :=
  if a ≤ b then (a, b) else (b, a)

/-- The pixel rectangle returned by `_bounding_box`. -/
structure Box where
  x1 : ℤ
  x2 : ℤ
  y1 : ℤ
  y2 : ℤ
deriving DecidableEq

/-- `_bounding_box(z_where, x_size, rounded=True, margin)` (source lines
195-212).  The default margin in the source is 1; `add_bounding_box` calls it
with that default.  Width and height are `x_size / s`, the pixel translation
is `-x/s * x_size / 2`, the rectangle is grown by `margin` on each side, the
two coordinates of each axis are sorted, and everything is rounded with
Python `round`. -/
def boundingBox (z : Pose) (xSize margin : ℚ) : Box :=
  let w := xSize / z.s
  let h := xSize / z.s
  let xtrans := -z.x / z.s * xSize / 2
  let ytrans := -z.y / z.s * xSize / 2
  let x1 := (xSize - w) / 2 + xtrans - margin
  let y1 := (xSize - h) / 2 + ytrans - margin
  let x2 := x1 + w + 2 * margin
  let y2 := y1 + h + 2 * margin
  let xs := pySort2 x1 x2
  let ys := pySort2 y1 y2
  Box.mk (pyRound xs.1) (pyRound xs.2) (pyRound ys.1) (pyRound ys.2)

/-- Normalized coordinate of pixel center `p` along an axis of size `n` under
the `align_corners=False` convention used by `F.affine_grid` at source line
55: pixel `p` maps to `(2p+1)/n - 1`. -/
def normCoord (n : ℕ) (p : ℤ) : ℚ := (2 * p + 1) / (n : ℚ) - 1

/-- Map a normalized coordinate back to a continuous source-pixel coordinate
along an axis of size `n`, `align_corners=False` convention of
`F.grid_sample`: `c ↦ ((c+1)*n - 1)/2`. -/
def unnormalize (n : ℕ) (c : ℚ) : ℚ := ((c + 1) * (n : ℚ) - 1) / 2

/-- One source tap of `F.grid_sample` with `padding_mode='zeros'`: a tap
outside the valid pixel range `[0, size-1]` contributes 0. -/
def tap (h w : ℕ) (img : ℤ → ℤ → ℚ) (r c : ℤ) : ℚ :=
  if 0 ≤ r ∧ r < (h : ℤ) ∧ 0 ≤ c ∧ c < (w : ℤ) then img r c else 0

/-- Bilinear interpolation of `F.grid_sample` at continuous source-pixel
coordinates `(py, px)`: blend the 4 enclosing taps by the fractional
weights, with zero padding. -/
def bilinear (h w : ℕ) (img : ℤ → ℤ → ℚ) (py px : ℚ) : ℚ :=
  (1 - (py - ⌊py⌋)) * (1 - (px - ⌊px⌋)) * tap h w img ⌊py⌋ ⌊px⌋ +
    (1 - (py - ⌊py⌋)) * (px - ⌊px⌋) * tap h w img ⌊py⌋ (⌊px⌋ + 1) +
    (py - ⌊py⌋) * (1 - (px - ⌊px⌋)) * tap h w img (⌊py⌋ + 1) ⌊px⌋ +
    (py - ⌊py⌋) * (px - ⌊px⌋) * tap h w img (⌊py⌋ + 1) (⌊px⌋ + 1)

/-- `F.affine_grid` followed by `F.grid_sample` (source lines 55-56), per
output pixel `(i, j)`: build the normalized output-pixel coordinate, push it
through the 2x3 matrix `theta`, and resample the `h × w` source bilinearly. -/
def gridSampleAffine (h w : ℕ) (img : ℤ → ℤ → ℚ) (theta : Fin 2 → Fin 3 → ℚ)
    (outH outW : ℕ) (i j : ℤ) : ℚ :=
  let xn := normCoord outW j
  let yn := normCoord outH i
  bilinear h w img
    (unnormalize h (theta 1 0 * xn + theta 1 1 * yn + theta 1 2))
    (unnormalize w (theta 0 0 * xn + theta 0 1 * yn + theta 0 2))

/-- `spatial_transformer(x, z_where, out_shape)` (source lines 41-57) for a
single-channel image of shape `h × w`: resample on a grid of shape
`outH × outW` driven by `expand_z_where z`. -/
def spatial_transformer (h w : ℕ) (img : ℤ → ℤ → ℚ) (z : Pose)
    (outH outW : ℕ) : ℤ → ℤ → ℚ := fun i j =>
  gridSampleAffine h w img (expand_z_where z) outH outW i j

/-- The continuous source-pixel x-coordinate sampled for output column `j`. -/
def sampleX (w outW : ℕ) (z : Pose) (j : ℤ) : ℚ :=
  unnormalize w (z.s * normCoord outW j + z.x)

/-- The continuous source-pixel y-coordinate sampled for output row `i`. -/
def sampleY (h outH : ℕ) (z : Pose) (i : ℤ) : ℚ :=
  unnormalize h (z.s * normCoord outH i + z.y)

/-- The `SpatialTransformer` class (source lines 9-38): records the
configured input and output shapes. -/
structure SpatialTransformer where
  inH : ℕ
  inW : ℕ
  outH : ℕ
  outW : ℕ

/-- `SpatialTransformer.forward` (source lines 34-35): warp an
`inH × inW` object image onto the `outH × outW` canvas. -/
def SpatialTransformer.forward (st : SpatialTransformer) (img : ℤ → ℤ → ℚ)
    (z : Pose) : ℤ → ℤ → ℚ :=
  spatial_transformer st.inH st.inW img z st.outH st.outW

/-- `SpatialTransformer.inverse` (source lines 37-38): invert the pose and
resample the `outH × outW` canvas onto the `inH × inW` object grid. -/
def SpatialTransformer.inverse (st : SpatialTransformer) (img : ℤ → ℤ → ℚ)
    (z : Pose) : ℤ → ℤ → ℚ :=
  spatial_transformer st.outH st.outW img (invert_z_where z) st.inH st.inW

/-- An image array: either 3-d `(channels, height, width)` or 4-d
`(batch, channels, height, width)`.  `pix` gives the value at
`(batch, channel, row, column)`; for a 3-d image the batch argument is 0. -/
structure Image where
  isFourD : Bool
  batch : ℕ
  channels : ℕ
  height : ℕ
  width : ℕ
  pix : ℕ → ℕ → ℤ → ℤ → ℚ

/-- The shape tuple of an image, as numpy reports it. -/
def imgShape (i : Image) : List ℕ :=
  if i.isFourD = true then [i.batch, i.channels, i.height, i.width]
  else [i.channels, i.height, i.width]

/-- `np.tile(img, (3,1,1))` / `tensor.repeat(...)` on the channel axis:
widen to 3 channels by replicating the existing channels cyclically (for a
1-channel image this replicates the single channel three times). -/
def widen (i : Image) : Image :=
  Image.mk i.isFourD i.batch 3 i.height i.width
    (fun b ch r c => i.pix b (ch % i.channels) r c)

/-- Resolution of one bound of a Python slice `a[lo:hi]` on an axis of
length `n`: a negative index counts from the end of the axis (clamped at 0),
a nonnegative one is clamped at `n`. -/
def resolveIdx (n : ℕ) (v : ℤ) : ℤ :=
  if v < 0 then max ((n : ℤ) + v) 0 else min v (n : ℤ)

/-- Membership of index `i` in the Python slice `lo:hi` over an axis of
length `n`. -/
def inSliceB (n : ℕ) (lo hi i : ℤ) : Bool :=
  decide (resolveIdx n lo ≤ i) && decide (i < resolveIdx n hi)

/-- The set of `(row, column)` positions assigned by the four guarded strokes
of `add_bounding_box` (source lines 230-239), for a canvas with `h` rows and
`w` columns.  `x_max = y_max = h - 1` mirrors the source, which takes both
bounds from `img.shape[2]`. -/
def drawnAt (h w : ℕ) (bb : Box) (r c : ℤ) : Bool :=
  let xmax : ℤ := (h : ℤ) - 1
  let ymax : ℤ := (h : ℤ) - 1
  (decide (0 ≤ bb.y1) && decide (bb.y1 ≤ ymax) && decide (r = bb.y1) &&
      inSliceB w (max bb.x1 0) (min bb.x2 xmax) c) ||
    (decide (0 ≤ bb.y2 - 1) && decide (bb.y2 - 1 ≤ ymax) &&
      decide (r = bb.y2 - 1) && inSliceB w (max bb.x1 0) (min bb.x2 xmax) c) ||
    (decide (0 ≤ bb.x1) && decide (bb.x1 ≤ xmax) && decide (c = bb.x1) &&
      inSliceB h (max bb.y1 0) (min bb.y2 ymax) r) ||
    (decide (0 ≤ bb.x2 - 1) && decide (bb.x2 - 1 ≤ xmax) &&
      decide (c = bb.x2 - 1) && inSliceB h (max bb.y1 0) (min bb.y2 ymax) r)

/-- `add_bounding_box(img, z_where, color)` (source lines 180-249).  The
input is copied to a host numpy array, a 3-d image gains a leading batch
axis, the batch must be 1, a 1-channel image is tiled to 3 channels, the box
from `_bounding_box` (default margin 1, canvas edge `img.shape[2]`) is drawn
as four guarded strokes, and the original rank is restored.  A direct column
index that passes the `x_max` guard but exceeds the actual width raises an
IndexError, modelled as an error result. -/
def add_bounding_box (img : Image) (z : Pose) (color : ℕ → ℚ) :
    Except String Image :=
  if img.isFourD = true ∧ img.batch ≠ 1 then
    Except.error "assert img has batch dim 1"
  else if img.channels ≠ 1 ∧ img.channels ≠ 3 then
    Except.error "assert 3 color channels"
  else
    let base := widen img
    let bb := boundingBox z (img.height : ℚ) 1
    let xmax : ℤ := (img.height : ℤ) - 1
    if (0 ≤ bb.x1 ∧ bb.x1 ≤ xmax ∧ ¬bb.x1 < (img.width : ℤ)) ∨
        (0 ≤ bb.x2 - 1 ∧ bb.x2 - 1 ≤ xmax ∧ ¬bb.x2 - 1 < (img.width : ℤ)) then
      Except.error "IndexError on column index"
    else
      Except.ok (Image.mk img.isFourD (if img.isFourD = true then img.batch else 1)
        3 img.height img.width
        (fun b ch r c =>
          if drawnAt img.height img.width bb r c then color ch
          else base.pix b ch r c))

/-- The layout of a `z_wheres` argument of `add_bounding_boxes`: either 2-d
of shape `(max_n_objects, 3)` (`threeD = false`) or 3-d of shape
`(lead, max_n_objects, 3)` (`threeD = true`, the source asserts `lead = 1`
and then drops that axis). -/
structure ZWheres where
  threeD : Bool
  lead : ℕ
  poses : List Pose

/-- `z_wheres.shape[1]`, as read by the assertion at source line 143 (before
the 2-d/3-d normalization): the object count for a 3-d argument, but the
constant 3 for a 2-d argument of shape `(max_n_objects, 3)`. -/
def zwShape1 (zw : ZWheres) : ℤ :=
  if zw.threeD = true then (zw.poses.length : ℤ) else 3

/-- The sequential drawing loop of `add_bounding_boxes` (source lines
162-163): fold `add_bounding_box` over the first `n` poses; slicing past the
end of a 2-d `z_wheres` yields an empty `z_where`, which trips the size-3
assertion inside `_bounding_box`. -/
def drawLoop (poses : List Pose) (color : ℕ → ℚ) (img : Image) :
    ℕ → Except String Image
  | 0 => Except.ok img
  | n + 1 =>
    match drawLoop poses color img n with
    | Except.error e => Except.error e
    | Except.ok im =>
      match poses.get? n with
      | none => Except.error "assert z_where has 3 elements"
      | some p => add_bounding_box im p color

/-- The shape `add_bounding_boxes` asserts for its result: the input shape
with the channel entry set to 3. -/
def targetShape (img : Image) : List ℕ :=
  if img.isFourD = true then [img.batch, 3, img.height, img.width]
  else [3, img.height, img.width]

/-- `add_bounding_boxes(img, z_wheres, color, n_obj)` (source lines
119-177).  `n_obj` is coerced with `.item()` / `int(round(.))`, checked
against `z_wheres.shape[1]`, the first `n_obj` boxes are drawn sequentially,
a still-1-channel image (the `n_obj = 0` case) is tiled to 3 channels, and
the final shape is asserted to be the input shape with 3 channels. -/
def add_bounding_boxes (img : Image) (zw : ZWheres) (color : ℕ → ℚ)
    (nObjRaw : ℚ) : Except String Image :=
  let nObj := pyRound nObjRaw
  if ¬nObj ≤ zwShape1 zw then
    Except.error "assert n_obj le z_wheres shape 1"
  else if zw.threeD = true ∧ zw.lead ≠ 1 then
    Except.error "assert z_wheres lead dim 1"
  else
    match drawLoop zw.poses color img nObj.toNat with
    | Except.error e => Except.error e
    | Except.ok im2 =>
      let im3 := if im2.channels = 1 then widen im2 else im2
      if imgShape im3 = targetShape img then Except.ok im3
      else Except.error "assert output shape"

/-- A 4-d batch of images, shape `(n, channels, height, width)`. -/
structure Batch4 where
  n : ℕ
  channels : ℕ
  height : ℕ
  width : ℕ
  pix : ℕ → ℕ → ℤ → ℤ → ℚ

/-- A 3-d batch of poses, shape `(n, maxObj, 3)`. -/
structure ZBatch where
  n : ℕ
  maxObj : ℕ
  poses : ℕ → ℕ → Pose

/-- `imgs[j]`: the 3-d image at batch index `j`. -/
def imageOf (bs : Batch4) (j : ℕ) : Image :=
  Image.mk false 1 bs.channels bs.height bs.width
    (fun _ ch r c => bs.pix j ch r c)

/-- `z_wheres[j]`: a 2-d pose array of shape `(maxObj, 3)`. -/
def rowZW (zb : ZBatch) (j : ℕ) : ZWheres :=
  ZWheres.mk false 0 ((List.range zb.maxObj).map (fun i => zb.poses j i))

/-- The default box color `np.array([1., 0., 0.])` (source line 107). -/
def defaultColor : ℕ → ℚ := fun ch => if ch = 0 then 1 else 0

/-- Evaluate `add_bounding_boxes(imgs[j], z_wheres[j], color, n_obj[j])` for
`j = 0, 1, ..., k-1` in order, as the list comprehension at source lines
108-111 does; indexing past the end of the batch raises an IndexError. -/
def annotateUpTo (step : ℕ → Except String Image) : ℕ →
    Except String (List Image)
  | 0 => Except.ok []
  | n + 1 =>
    match annotateUpTo step n with
    | Except.error e => Except.error e
    | Except.ok l =>
      match step n with
      | Except.error e => Except.error e
      | Except.ok i => Except.ok (l ++ [i])

/-- The shape of `torch.stack(list)`: fails on an empty list or on images of
unequal shapes, and otherwise prepends the list length. -/
def stackShape : List Image → Except String (List ℕ)
  | [] => Except.error "stack expects a non-empty list"
  | i :: rest =>
    if rest.all (fun x => imgShape x = imgShape i) then
      Except.ok ((rest.length + 1) :: imgShape i)
    else Except.error "stack expects equal shapes"

/-- `batch_add_bounding_boxes(imgs, z_wheres, n_obj, color, n_img)` (source
lines 83-116): check the shape preconditions, default `n_img` to the batch
size and `color` to red, annotate images `0..n_img-1`, stack them, and
assert the stacked shape equals the full-batch target shape. -/
def batch_add_bounding_boxes (bs : Batch4) (zb : ZBatch)
    (nObj : ℕ → ℚ) (color : Option (ℕ → ℚ)) (nImg : Option ℕ) :
    Except String (List Image) :=
  if bs.channels ≠ 1 ∧ bs.channels ≠ 3 then
    Except.error "assert channel dim 1 or 3"
  else if zb.n ≠ bs.n then
    Except.error "assert batch sizes match"
  else
    let k := nImg.getD bs.n
    let col := color.getD defaultColor
    let target : List ℕ := [bs.n, 3, bs.height, bs.width]
    match annotateUpTo
        (fun j =>
          if j < bs.n then
            add_bounding_boxes (imageOf bs j) (rowZW zb j) col (nObj j)
          else Except.error "IndexError on batch index") k with
    | Except.error e => Except.error e
    | Except.ok outs =>
      match stackShape outs with
      | Except.error e => Except.error e
      | Except.ok shp =>
        if shp = target then Except.ok outs
        else Except.error "assert output shape"

/-- A store of heap-allocated arrays, for the aliasing claim: references are
indices into the list. -/
structure Store where
  arrs : List Image

/-- `add_bounding_box` as a heap operation: read the array named by `ref`,
build the annotated result on a fresh copy (`img = to_np(img).copy()` at
source line 217), and allocate the result as a new array, leaving every
existing array untouched. -/
def add_bounding_box_alloc (st : Store) (ref : ℕ) (z : Pose)
    (color : ℕ → ℚ) : Except String (Store × ℕ) :=
  match st.arrs.get? ref with
  | none => Except.error "dangling reference"
  | some img =>
    match add_bounding_box img z color with
    | Except.error e => Except.error e
    | Except.ok out => Except.ok (Store.mk (st.arrs ++ [out]), st.arrs.length)

/-- Project the image out of a non-error result (placeholder otherwise). -/
def theImage (e : Except String Image) : Image :=
  match e with
  | Except.ok i => i
  | Except.error _ => Image.mk false 0 0 0 0 (fun _ _ _ _ => 0)

/-- Project the error message out of a result, if any. -/
def errOf (e : Except String Image) : Option String :=
  match e with
  | Except.ok _ => none
  | Except.error s => some s

/-- The in-bounds part of the border of box `bb` on a square canvas with
edge `e`: the four border segments (rows `y1` and `y2-1` between columns
`x1` and `x2-1`, columns `x1` and `x2-1` between rows `y1` and `y2-1`),
each clipped to the valid index range `[0, e-1]`.  This is the locus the
spec says drawing is confined to. -/
def onClippedBorder (e : ℤ) (bb : Box) (r c : ℤ) : Prop :=
  ((r = bb.y1 ∨ r = bb.y2 - 1) ∧ 0 ≤ r ∧ r ≤ e - 1 ∧
      max bb.x1 0 ≤ c ∧ c ≤ min (bb.x2 - 1) (e - 1)) ∨
    ((c = bb.x1 ∨ c = bb.x2 - 1) ∧ 0 ≤ c ∧ c ≤ e - 1 ∧
      max bb.y1 0 ≤ r ∧ r ≤ min (bb.y2 - 1) (e - 1))

instance (e : ℤ) (bb : Box) (r c : ℤ) : Decidable (onClippedBorder e bb r c) := by
  unfold onClippedBorder
  infer_instance

/-- The pose `[6., 2., 4.]` used by the source's own smoke test. -/
def zTest : Pose := Pose.mk 6 2 4

/-- An all-zero 1-channel 48x48 3-d image. -/
def imgZero48 : Image := Image.mk false 1 1 48 48 (fun _ _ _ _ => 0)

/-- An all-zero 1-channel 4x4 3-d image. -/
def imgZero4 : Image := Image.mk false 1 1 4 4 (fun _ _ _ _ => 0)

/-- A 2-d `z_wheres` of shape `(5, 3)`: five poses supplied. -/
def zwFive : ZWheres := ZWheres.mk false 0 [zTest, zTest, zTest, zTest, zTest]

/-- A pose whose box lies entirely above the canvas but overlaps it in x:
for canvas edge 48 it yields the box `(23, 73, -73, -23)`. -/
def poseAbove : Pose := Pose.mk 1 (-1) 3

/-- A list of images from a non-error result (empty otherwise). -/
def theList (e : Except String (List Image)) : List Image :=
  match e with
  | Except.ok l => l
  | Except.error _ => []

/-- A 3-d `z_wheres` of shape `(1, 1, 3)`: one pose supplied. -/
def zwOne : ZWheres := ZWheres.mk true 1 [zTest]

/-- A batch of one all-zero 1-channel 2x2 image. -/
def batchOne : Batch4 := Batch4.mk 1 1 2 2 (fun _ _ _ _ => 0)

/-- A pose batch of shape `(1, 1, 3)`. -/
def zbOne : ZBatch := ZBatch.mk 1 1 (fun _ _ => zTest)

/-- A batch of two all-zero 1-channel 2x2 images. -/
def batchTwo : Batch4 := Batch4.mk 2 1 2 2 (fun _ _ _ _ => 0)

/-- A pose batch of shape `(2, 1, 3)`. -/
def zbTwo : ZBatch := ZBatch.mk 2 1 (fun _ _ => zTest)

/-- The store-and-reference pair produced by annotating the single array of
the store `[imgZero4]`. -/
def c7res : Store × ℕ :=
  (Store.mk [imgZero4, theImage (add_bounding_box imgZero4 zTest defaultColor)],
    1)

/-- A test image that is 3 inside the 2x2 window and 5 outside it. -/
def probeA : ℤ → ℤ → ℚ := fun r c =>
  if 0 ≤ r ∧ r < 2 ∧ 0 ≤ c ∧ c < 2 then 3 else 5

/-- A test image that is 3 inside the 2x2 window and 7 outside it. -/
def probeB : ℤ → ℤ → ℚ := fun r c =>
  if 0 ≤ r ∧ r < 2 ∧ 0 ≤ c ∧ c < 2 then 3 else 7

end STCore

namespace STCore

theorem pySort2_eq (a b : ℚ) : pySort2 a b = (min a b, max a b) := by
  unfold pySort2
  split
  · next h => rw [min_eq_left h, max_eq_right h]
  · next h =>
    have h' : b ≤ a := le_of_not_le h
    rw [min_eq_right h', max_eq_left h']

theorem pyRound_mono {a b : ℚ} (h : a ≤ b) : pyRound a ≤ pyRound b := by
  unfold pyRound
  have hf : ⌊a⌋ ≤ ⌊b⌋ := Int.floor_le_floor h
  by_cases hab : ⌊a⌋ = ⌊b⌋
  · rw [hab]
    have h1 : a - (⌊b⌋ : ℚ) ≤ b - (⌊b⌋ : ℚ) := sub_le_sub_right h _
    split_ifs <;> first | omega | linarith
  · have h2 : ⌊a⌋ + 1 ≤ ⌊b⌋ := by omega
    split_ifs <;> omega

theorem expand_z_where_eq (z : Pose) :
    expand_z_where z = ![![z.s, 0, z.x], ![0, z.s, z.y]] := by
  funext r c
  fin_cases r <;> fin_cases c <;> rfl

/-- Claim C2: for every pose `(s, x, y)`, `expand_z_where` produces exactly
the 2x3 affine matrix with row 0 equal to `(s, 0, x)` and row 1 equal to
`(0, s, y)`. -/
theorem claim_C2 (z : Pose) :
    expand_z_where z = ![![z.s, 0, z.x], ![0, z.s, z.y]] :=
  expand_z_where_eq z

/-- Claim C1: for every pose with `s ≠ 0`, `invert_z_where` returns
`(1/s, -x/s, -y/s)`, and composing the matrix expansion of the inverse pose
with the matrix expansion of the original pose gives the identity affine
map. -/
theorem claim_C1 (z : Pose) (hs : z.s ≠ 0) :
    invert_z_where z = Pose.mk (1 / z.s) (-z.x / z.s) (-z.y / z.s) ∧
      composeAffine (expand_z_where (invert_z_where z)) (expand_z_where z) =
        idAffine := by
  refine ⟨rfl, ?_⟩
  funext r c
  have hinv : expand_z_where (invert_z_where z) =
      ![![1 / z.s, 0, -z.x / z.s], ![0, 1 / z.s, -z.y / z.s]] :=
    expand_z_where_eq (invert_z_where z)
  fin_cases r <;> fin_cases c <;>
    simp [composeAffine, hinv, expand_z_where_eq, idAffine] <;>
    field_simp

theorem claim_C1_witness :
    zTest.s ≠ 0 ∧
      (invert_z_where zTest =
          Pose.mk (1 / zTest.s) (-zTest.x / zTest.s) (-zTest.y / zTest.s) ∧
        composeAffine (expand_z_where (invert_z_where zTest))
            (expand_z_where zTest) = idAffine) :=
  ⟨by norm_num [zTest], claim_C1 zTest (by norm_num [zTest])⟩

/-- Claim C5: for every pose with `s ≠ 0`, square canvas edge `e` and margin
`m`, the box computed by `_bounding_box` is the rounding of exact
coordinates whose extent is the object size `e/s` expanded by `m` on each
side, whose center is `e/2` plus the pixel translation `-x/s * e/2`
(resp. `-y/s * e/2`), with each coordinate pair sorted ascending both
before and after rounding. -/
theorem claim_C5 (z : Pose) (e m : ℚ) (hs : z.s ≠ 0) :
    ∃ X1 X2 Y1 Y2 : ℚ,
      boundingBox z e m =
          Box.mk (pyRound X1) (pyRound X2) (pyRound Y1) (pyRound Y2) ∧
        X1 ≤ X2 ∧ Y1 ≤ Y2 ∧
        X2 - X1 = |e / z.s + 2 * m| ∧
        Y2 - Y1 = |e / z.s + 2 * m| ∧
        (X1 + X2) / 2 = e / 2 + -z.x / z.s * e / 2 ∧
        (Y1 + Y2) / 2 = e / 2 + -z.y / z.s * e / 2 ∧
        (boundingBox z e m).x1 ≤ (boundingBox z e m).x2 ∧
        (boundingBox z e m).y1 ≤ (boundingBox z e m).y2 := by
  have hbox : boundingBox z e m =
      Box.mk
        (pyRound (min ((e - e / z.s) / 2 + -z.x / z.s * e / 2 - m)
          ((e - e / z.s) / 2 + -z.x / z.s * e / 2 - m + e / z.s + 2 * m)))
        (pyRound (max ((e - e / z.s) / 2 + -z.x / z.s * e / 2 - m)
          ((e - e / z.s) / 2 + -z.x / z.s * e / 2 - m + e / z.s + 2 * m)))
        (pyRound (min ((e - e / z.s) / 2 + -z.y / z.s * e / 2 - m)
          ((e - e / z.s) / 2 + -z.y / z.s * e / 2 - m + e / z.s + 2 * m)))
        (pyRound (max ((e - e / z.s) / 2 + -z.y / z.s * e / 2 - m)
          ((e - e / z.s) / 2 + -z.y / z.s * e / 2 - m + e / z.s + 2 * m))) := by
    simp only [boundingBox, pySort2_eq]
  refine ⟨_, _, _, _, hbox, min_le_max, min_le_max, ?_, ?_, ?_, ?_, ?_, ?_⟩
  · rw [max_sub_min_eq_abs]
    have hd : (e - e / z.s) / 2 + -z.x / z.s * e / 2 - m + e / z.s + 2 * m -
        ((e - e / z.s) / 2 + -z.x / z.s * e / 2 - m) =
        e / z.s + 2 * m := by ring
    rw [hd]
  · rw [max_sub_min_eq_abs]
    have hd : (e - e / z.s) / 2 + -z.y / z.s * e / 2 - m + e / z.s + 2 * m -
        ((e - e / z.s) / 2 + -z.y / z.s * e / 2 - m) =
        e / z.s + 2 * m := by ring
    rw [hd]
  · rw [min_add_max]
    ring
  · rw [min_add_max]
    ring
  · rw [hbox]
    exact pyRound_mono min_le_max
  · rw [hbox]
    exact pyRound_mono min_le_max

theorem bilinear_int (h w : ℕ) (img : ℤ → ℤ → ℚ) (r c : ℤ) :
    bilinear h w img (r : ℚ) (c : ℚ) = tap h w img r c := by
  unfold bilinear
  rw [Int.floor_intCast, Int.floor_intCast]
  simp

theorem spatial_transformer_eval (h w : ℕ) (img : ℤ → ℤ → ℚ) (z : Pose)
    (outH outW : ℕ) (i j : ℤ) :
    spatial_transformer h w img z outH outW i j =
      bilinear h w img (sampleY h outH z i) (sampleX w outW z j) := by
  unfold spatial_transformer gridSampleAffine sampleX sampleY
  have h00 : expand_z_where z 0 0 = z.s := rfl
  have h01 : expand_z_where z 0 1 = 0 := rfl
  have h02 : expand_z_where z 0 2 = z.x := rfl
  have h10 : expand_z_where z 1 0 = 0 := rfl
  have h11 : expand_z_where z 1 1 = z.s := rfl
  have h12 : expand_z_where z 1 2 = z.y := rfl
  rw [h00, h01, h02, h10, h11, h12]
  congr 1 <;> · congr 1; ring

theorem warp_coord_forward (w outW : ℕ) (s x : ℚ) (j A : ℤ)
    (hw : 0 < w) (ho : 0 < outW) (hs : s = (outW : ℚ) / (w : ℚ))
    (hA : (A : ℚ) = (x + 1 - s) * (w : ℚ) / 2) :
    unnormalize w (s * normCoord outW j + x) = ((j + A : ℤ) : ℚ) := by
  have hw' : (w : ℚ) ≠ 0 := Nat.cast_ne_zero.mpr hw.ne'
  have ho' : (outW : ℚ) ≠ 0 := Nat.cast_ne_zero.mpr ho.ne'
  subst hs
  unfold unnormalize normCoord
  push_cast
  rw [hA]
  field_simp
  ring

theorem warp_coord_inverse (w outW : ℕ) (s x : ℚ) (j A : ℤ)
    (hw : 0 < w) (ho : 0 < outW) (hs : s = (outW : ℚ) / (w : ℚ))
    (hA : (A : ℚ) = (x + 1 - s) * (w : ℚ) / 2) :
    unnormalize outW (1 / s * normCoord w j + -x / s) = ((j - A : ℤ) : ℚ) := by
  have hw' : (w : ℚ) ≠ 0 := Nat.cast_ne_zero.mpr hw.ne'
  have ho' : (outW : ℚ) ≠ 0 := Nat.cast_ne_zero.mpr ho.ne'
  subst hs
  unfold unnormalize normCoord
  push_cast
  rw [hA]
  field_simp
  ring

theorem claim_C5_witness :
    zTest.s ≠ 0 ∧
      (∃ X1 X2 Y1 Y2 : ℚ,
        boundingBox zTest 48 1 =
            Box.mk (pyRound X1) (pyRound X2) (pyRound Y1) (pyRound Y2) ∧
          X1 ≤ X2 ∧ Y1 ≤ Y2 ∧
          X2 - X1 = |48 / zTest.s + 2 * 1| ∧
          Y2 - Y1 = |48 / zTest.s + 2 * 1| ∧
          (X1 + X2) / 2 = 48 / 2 + -zTest.x / zTest.s * 48 / 2 ∧
          (Y1 + Y2) / 2 = 48 / 2 + -zTest.y / zTest.s * 48 / 2 ∧
          (boundingBox zTest 48 1).x1 ≤ (boundingBox zTest 48 1).x2 ∧
          (boundingBox zTest 48 1).y1 ≤ (boundingBox zTest 48 1).y2) :=
  ⟨by norm_num [zTest], claim_C5 zTest 48 1 (by norm_num [zTest])⟩

theorem pyRound_zero : pyRound 0 = 0 := by norm_num [pyRound]

theorem pyRound_four : pyRound 4 = 4 := by norm_num [pyRound]

/-- Claim C3: the coercion of `n_obj` (via `.item()` and `int(round(.))`)
is as claimed, but the precondition assert compares the coerced `n_obj`
against `z_wheres.shape[1]` BEFORE the 2-d/3-d normalization.  For the
documented 2-d layout `(max_n_objects, 3)` that dimension is the constant
3, so a call with 5 poses and `n_obj = 4` fails the assert even though
`n_obj` does not exceed the number of poses supplied — contradicting both
the spec and the docstring's intent. -/
theorem claim_C3 :
    errOf (add_bounding_boxes imgZero48 zwFive defaultColor 4) =
        some "assert n_obj le z_wheres shape 1" ∧
      pyRound 4 ≤ (zwFive.poses.length : ℤ) := by
  constructor
  · norm_num [add_bounding_boxes, pyRound, zwShape1, zwFive, errOf]
  · rw [pyRound_four]
    decide

theorem except_ok_of_isOk {α : Type} {e : Except String α}
    (h : e.isOk = true) : ∃ v, e = Except.ok v := by
  cases e
  · simp [Except.isOk, Except.toBool] at h
  · exact ⟨_, rfl⟩

theorem add_bounding_box_channels {img : Image} {z : Pose} {c : ℕ → ℚ}
    {out : Image} (h : add_bounding_box img z c = Except.ok out) :
    out.channels = 3 := by
  simp only [add_bounding_box] at h
  split_ifs at h <;> first
    | exact Except.noConfusion h
    | (injection h with h'; rw [← h'])

theorem channels_of_shape_eq {a b : Image} (h : imgShape a = targetShape b) :
    a.channels = 3 := by
  unfold imgShape targetShape at h
  split_ifs at h <;> simp_all

theorem add_bounding_boxes_channels {img : Image} {zw : ZWheres} {c : ℕ → ℚ}
    {n : ℚ} {out : Image}
    (h : add_bounding_boxes img zw c n = Except.ok out) : out.channels = 3 := by
  simp only [add_bounding_boxes] at h
  split_ifs at h <;> try exact Except.noConfusion h
  cases hd : drawLoop zw.poses c img (pyRound n).toNat with
  | error e => rw [hd] at h; exact Except.noConfusion h
  | ok im2 =>
    simp only [hd] at h
    split_ifs at h <;> first
      | exact Except.noConfusion h
      | (injection h with h'; rw [← h'];
          exact channels_of_shape_eq (by assumption))

theorem imgShape_widen_target (img : Image) :
    imgShape (widen img) = targetShape img := by
  unfold imgShape widen targetShape
  rfl

theorem add_bounding_boxes_pix0 {img : Image} {zw : ZWheres} {c : ℕ → ℚ}
    {n : ℚ} {v : Image} (hch : img.channels = 1) (hn : pyRound n = 0)
    (hv : add_bounding_boxes img zw c n = Except.ok v) :
    ∀ (b ch : ℕ) (r k : ℤ), v.pix b ch r k = img.pix b 0 r k := by
  simp only [add_bounding_boxes, hn] at hv
  simp only [show drawLoop zw.poses c img (Int.toNat 0) = Except.ok img
    from rfl] at hv
  rw [if_pos hch, if_pos (imgShape_widen_target img)] at hv
  split_ifs at hv
  injection hv with hv'
  intro b ch r k
  rw [← hv']
  show img.pix b (ch % img.channels) r k = img.pix b 0 r k
  rw [hch, Nat.mod_one]

theorem annotateUpTo_length {step : ℕ → Except String Image} :
    ∀ {k : ℕ} {l : List Image}, annotateUpTo step k = Except.ok l →
      l.length = k := by
  intro k
  induction k with
  | zero =>
    intro l h
    injection h with h'
    rw [← h']
    rfl
  | succ n ih =>
    intro l h
    unfold annotateUpTo at h
    cases hh : annotateUpTo step n with
    | error e => rw [hh] at h; exact Except.noConfusion h
    | ok l' =>
      simp only [hh] at h
      cases hs : step n with
      | error e => rw [hs] at h; exact Except.noConfusion h
      | ok i =>
        simp only [hs] at h
        injection h with h'
        rw [← h', List.length_append, ih hh]
        rfl

theorem annotateUpTo_mem {step : ℕ → Except String Image} :
    ∀ {k : ℕ} {l : List Image}, annotateUpTo step k = Except.ok l →
      ∀ im ∈ l, ∃ j, j < k ∧ step j = Except.ok im := by
  intro k
  induction k with
  | zero =>
    intro l h im hmem
    injection h with h'
    rw [← h'] at hmem
    exact absurd hmem (List.not_mem_nil im)
  | succ n ih =>
    intro l h im hmem
    unfold annotateUpTo at h
    cases hh : annotateUpTo step n with
    | error e => rw [hh] at h; exact Except.noConfusion h
    | ok l' =>
      simp only [hh] at h
      cases hs : step n with
      | error e => rw [hs] at h; exact Except.noConfusion h
      | ok i =>
        simp only [hs] at h
        injection h with h'
        rw [← h'] at hmem
        rcases List.mem_append.mp hmem with hmem' | hmem'
        · obtain ⟨j, hj, hstep⟩ := ih hh im hmem'
          exact ⟨j, by omega, hstep⟩
        · have : im = i := List.mem_singleton.mp hmem'
          exact ⟨n, by omega, by rw [this]; exact hs⟩

theorem batch_mem_channels {bs : Batch4} {zb : ZBatch} {no : ℕ → ℚ}
    {col : Option (ℕ → ℚ)} {ni : Option ℕ} {outs : List Image}
    (h : batch_add_bounding_boxes bs zb no col ni = Except.ok outs) :
    ∀ im ∈ outs, im.channels = 3 := by
  intro im hmem
  simp only [batch_add_bounding_boxes] at h
  split_ifs at h <;> try exact Except.noConfusion h
  split at h
  · exact Except.noConfusion h
  · rename_i l heq
    split at h
    · exact Except.noConfusion h
    · rename_i shp hshp
      split_ifs at h with htgt
      injection h with h'
      rw [← h'] at hmem
      obtain ⟨j, hjk, hstep⟩ := annotateUpTo_mem heq im hmem
      by_cases hjn : j < bs.n
      · rw [if_pos hjn] at hstep
        exact add_bounding_boxes_channels hstep
      · rw [if_neg hjn] at hstep
        exact Except.noConfusion hstep

/-- Claim C6: every box-annotation entry point returns a 3-channel image.
`add_bounding_box` and `add_bounding_boxes` always return channel count 3
when they succeed — in particular a 3-channel input keeps 3 channels, so
re-annotating an output never increases the channel count — and every image
returned by `batch_add_bounding_boxes` has 3 channels.  A 1-channel input
with `n_obj = 0` is widened by replicating its single channel three
times. -/
theorem claim_C6 :
    (∀ (img : Image) (z : Pose) (c : ℕ → ℚ),
        (add_bounding_box img z c).isOk = true →
        (theImage (add_bounding_box img z c)).channels = 3) ∧
      (∀ (img : Image) (zw : ZWheres) (c : ℕ → ℚ) (n : ℚ),
        (add_bounding_boxes img zw c n).isOk = true →
        (theImage (add_bounding_boxes img zw c n)).channels = 3) ∧
      (∀ (img : Image) (zw : ZWheres) (c : ℕ → ℚ) (n : ℚ),
        img.channels = 1 → pyRound n = 0 →
        (add_bounding_boxes img zw c n).isOk = true →
        ∀ (b ch : ℕ) (r k : ℤ),
          (theImage (add_bounding_boxes img zw c n)).pix b ch r k =
            img.pix b 0 r k) ∧
      (∀ (bs : Batch4) (zb : ZBatch) (no : ℕ → ℚ) (col : Option (ℕ → ℚ))
          (ni : Option ℕ),
        (batch_add_bounding_boxes bs zb no col ni).isOk = true →
        ∀ im ∈ theList (batch_add_bounding_boxes bs zb no col ni),
          im.channels = 3) := by
  refine ⟨?_, ?_, ?_, ?_⟩
  · intro img z c h
    obtain ⟨v, hv⟩ := except_ok_of_isOk h
    rw [hv]
    exact add_bounding_box_channels hv
  · intro img zw c n h
    obtain ⟨v, hv⟩ := except_ok_of_isOk h
    rw [hv]
    exact add_bounding_boxes_channels hv
  · intro img zw c n hch hn h b ch r k
    obtain ⟨v, hv⟩ := except_ok_of_isOk h
    rw [hv]
    exact add_bounding_boxes_pix0 hch hn hv b ch r k
  · intro bs zb no col ni h im hmem
    obtain ⟨outs, houts⟩ := except_ok_of_isOk h
    rw [houts] at hmem
    exact batch_mem_channels houts im (by simpa [theList] using hmem)

/-- Claim C8 (amended): `inverse ∘ forward` with the same pose reproduces
the input image exactly when the scale equals the output/input resolution
ratio on both axes AND the pose places the sampling grid on integer pixel
offsets (`A`, `B` integral) AND the object's footprint lies fully on the
canvas (`inW - outW ≤ A ≤ 0`, `inH - outH ≤ B ≤ 0`).  The original claim,
which required only that the scale equal the resolution ratio, is refuted
by `claim_C8_cex`. -/
theorem claim_C8 (st : SpatialTransformer) (z : Pose) (A B : ℤ)
    (hinH : 0 < st.inH) (hinW : 0 < st.inW)
    (houtH : 0 < st.outH) (houtW : 0 < st.outW)
    (hsW : z.s = (st.outW : ℚ) / (st.inW : ℚ))
    (hsH : z.s = (st.outH : ℚ) / (st.inH : ℚ))
    (hA : (A : ℚ) = (z.x + 1 - z.s) * (st.inW : ℚ) / 2)
    (hB : (B : ℚ) = (z.y + 1 - z.s) * (st.inH : ℚ) / 2)
    (hA0 : A ≤ 0) (hA1 : (st.inW : ℤ) - (st.outW : ℤ) ≤ A)
    (hB0 : B ≤ 0) (hB1 : (st.inH : ℤ) - (st.outH : ℤ) ≤ B)
    (img : ℤ → ℤ → ℚ) (i j : ℤ)
    (hi0 : 0 ≤ i) (hi1 : i < (st.inH : ℤ))
    (hj0 : 0 ≤ j) (hj1 : j < (st.inW : ℤ)) :
    SpatialTransformer.inverse st (SpatialTransformer.forward st img z) z i j =
      img i j := by
  unfold SpatialTransformer.inverse
  rw [spatial_transformer_eval]
  have hy : sampleY st.outH st.inH (invert_z_where z) i = ((i - B : ℤ) : ℚ) := by
    unfold sampleY
    have h1 : (invert_z_where z).s = 1 / z.s := rfl
    have h2 : (invert_z_where z).y = -z.y / z.s := rfl
    rw [h1, h2]
    exact warp_coord_inverse st.inH st.outH z.s z.y i B hinH houtH hsH hB
  have hx : sampleX st.outW st.inW (invert_z_where z) j = ((j - A : ℤ) : ℚ) := by
    unfold sampleX
    have h1 : (invert_z_where z).s = 1 / z.s := rfl
    have h2 : (invert_z_where z).x = -z.x / z.s := rfl
    rw [h1, h2]
    exact warp_coord_inverse st.inW st.outW z.s z.x j A hinW houtW hsW hA
  rw [hy, hx, bilinear_int]
  have htap : tap st.outH st.outW (SpatialTransformer.forward st img z)
      (i - B) (j - A) = SpatialTransformer.forward st img z (i - B) (j - A) := by
    unfold tap
    rw [if_pos]
    exact ⟨by omega, by omega, by omega, by omega⟩
  rw [htap]
  unfold SpatialTransformer.forward
  rw [spatial_transformer_eval]
  have hy2 : sampleY st.inH st.outH z (i - B) = ((i : ℤ) : ℚ) := by
    unfold sampleY
    have hc := warp_coord_forward st.inH st.outH z.s z.y (i - B) B hinH houtH hsH hB
    rw [hc]
    norm_num
  have hx2 : sampleX st.inW st.outW z (j - A) = ((j : ℤ) : ℚ) := by
    unfold sampleX
    have hc := warp_coord_forward st.inW st.outW z.s z.x (j - A) A hinW houtW hsW hA
    rw [hc]
    norm_num
  rw [hy2, hx2, bilinear_int]
  unfold tap
  rw [if_pos]
  exact ⟨hi0, hi1, hj0, hj1⟩

theorem claim_C8_witness :
    zTest.s = ((48 : ℕ) : ℚ) / ((8 : ℕ) : ℚ) ∧
      ((-12 : ℤ) : ℚ) = (zTest.x + 1 - zTest.s) * ((8 : ℕ) : ℚ) / 2 ∧
      SpatialTransformer.inverse (SpatialTransformer.mk 8 8 48 48)
          (SpatialTransformer.forward (SpatialTransformer.mk 8 8 48 48)
            (fun r c => (r : ℚ) + 10 * c) zTest)
          zTest 1 2 =
        (fun r c => (r : ℚ) + 10 * c) 1 2 :=
  ⟨by norm_num [zTest], by norm_num [zTest],
    claim_C8 (SpatialTransformer.mk 8 8 48 48) zTest (-12) (-4)
      (by norm_num) (by norm_num) (by norm_num) (by norm_num)
      (by norm_num [zTest]) (by norm_num [zTest])
      (by norm_num [zTest]) (by norm_num [zTest])
      (by norm_num) (by norm_num) (by norm_num) (by norm_num)
      (fun r c => (r : ℚ) + 10 * c) 1 2
      (by norm_num) (by norm_num) (by norm_num) (by norm_num)⟩

theorem tap_oob_col (h w : ℕ) (img : ℤ → ℤ → ℚ) (r c : ℤ)
    (hc : c < 0 ∨ (w : ℤ) ≤ c) : tap h w img r c = 0 := by
  unfold tap
  rw [if_neg]
  omega

theorem tap_oob_row (h w : ℕ) (img : ℤ → ℤ → ℚ) (r c : ℤ)
    (hr : r < 0 ∨ (h : ℤ) ≤ r) : tap h w img r c = 0 := by
  unfold tap
  rw [if_neg]
  omega

theorem bilinear_oob (h w : ℕ) (img : ℤ → ℤ → ℚ) (py px : ℚ)
    (hoob : px ≤ -1 ∨ (w : ℚ) ≤ px ∨ py ≤ -1 ∨ (h : ℚ) ≤ py) :
    bilinear h w img py px = 0 := by
  rcases hoob with hx | hx | hy | hy
  · have hf : ⌊px⌋ ≤ -1 := by
      have h1 : ⌊px⌋ ≤ ⌊(-1 : ℚ)⌋ := Int.floor_le_floor hx
      have h2 : ⌊(-1 : ℚ)⌋ = -1 := by rw [Int.floor_eq_iff]; norm_num
      omega
    by_cases h1 : ⌊px⌋ + 1 ≤ -1
    · unfold bilinear
      rw [tap_oob_col h w img ⌊py⌋ ⌊px⌋ (Or.inl (by omega)),
        tap_oob_col h w img ⌊py⌋ (⌊px⌋ + 1) (Or.inl (by omega)),
        tap_oob_col h w img (⌊py⌋ + 1) ⌊px⌋ (Or.inl (by omega)),
        tap_oob_col h w img (⌊py⌋ + 1) (⌊px⌋ + 1) (Or.inl (by omega))]
      ring
    · have hfx : ⌊px⌋ = -1 := by omega
      have hdc : px - (⌊px⌋ : ℚ) = 0 := by
        have hl : (⌊px⌋ : ℚ) ≤ px := Int.floor_le px
        have hu : px - (⌊px⌋ : ℚ) ≤ 0 := by
          rw [hfx]
          push_cast
          linarith
        linarith
      unfold bilinear
      rw [hdc, tap_oob_col h w img ⌊py⌋ ⌊px⌋ (Or.inl (by omega)),
        tap_oob_col h w img (⌊py⌋ + 1) ⌊px⌋ (Or.inl (by omega))]
      ring
  · have hf : (w : ℤ) ≤ ⌊px⌋ := Int.le_floor.mpr (by exact_mod_cast hx)
    unfold bilinear
    rw [tap_oob_col h w img ⌊py⌋ ⌊px⌋ (Or.inr (by omega)),
      tap_oob_col h w img ⌊py⌋ (⌊px⌋ + 1) (Or.inr (by omega)),
      tap_oob_col h w img (⌊py⌋ + 1) ⌊px⌋ (Or.inr (by omega)),
      tap_oob_col h w img (⌊py⌋ + 1) (⌊px⌋ + 1) (Or.inr (by omega))]
    ring
  · have hf : ⌊py⌋ ≤ -1 := by
      have h1 : ⌊py⌋ ≤ ⌊(-1 : ℚ)⌋ := Int.floor_le_floor hy
      have h2 : ⌊(-1 : ℚ)⌋ = -1 := by rw [Int.floor_eq_iff]; norm_num
      omega
    by_cases h1 : ⌊py⌋ + 1 ≤ -1
    · unfold bilinear
      rw [tap_oob_row h w img ⌊py⌋ ⌊px⌋ (Or.inl (by omega)),
        tap_oob_row h w img ⌊py⌋ (⌊px⌋ + 1) (Or.inl (by omega)),
        tap_oob_row h w img (⌊py⌋ + 1) ⌊px⌋ (Or.inl (by omega)),
        tap_oob_row h w img (⌊py⌋ + 1) (⌊px⌋ + 1) (Or.inl (by omega))]
      ring
    · have hfy : ⌊py⌋ = -1 := by omega
      have hdr : py - (⌊py⌋ : ℚ) = 0 := by
        have hl : (⌊py⌋ : ℚ) ≤ py := Int.floor_le py
        have hu : py - (⌊py⌋ : ℚ) ≤ 0 := by
          rw [hfy]
          push_cast
          linarith
        linarith
      unfold bilinear
      rw [hdr, tap_oob_row h w img ⌊py⌋ ⌊px⌋ (Or.inl (by omega)),
        tap_oob_row h w img ⌊py⌋ (⌊px⌋ + 1) (Or.inl (by omega))]
      ring
  · have hf : (h : ℤ) ≤ ⌊py⌋ := Int.le_floor.mpr (by exact_mod_cast hy)
    unfold bilinear
    rw [tap_oob_row h w img ⌊py⌋ ⌊px⌋ (Or.inr (by omega)),
      tap_oob_row h w img ⌊py⌋ (⌊px⌋ + 1) (Or.inr (by omega)),
      tap_oob_row h w img (⌊py⌋ + 1) ⌊px⌋ (Or.inr (by omega)),
      tap_oob_row h w img (⌊py⌋ + 1) (⌊px⌋ + 1) (Or.inr (by omega))]
    ring

theorem tap_congr (h w : ℕ) (img img2 : ℤ → ℤ → ℚ) (r c : ℤ)
    (hagree : ∀ r c : ℤ, 0 ≤ r → r < (h : ℤ) → 0 ≤ c → c < (w : ℤ) →
      img r c = img2 r c) :
    tap h w img r c = tap h w img2 r c := by
  unfold tap
  split
  · next hin => exact hagree r c hin.1 hin.2.1 hin.2.2.1 hin.2.2.2
  · rfl

/-- Claim C9: bilinear resampling pads with zeros at the boundary.  First,
pixel values outside the valid range `[0, size-1]` never influence any
output pixel (taps there contribute 0, neither clamped nor wrapped): two
source images that agree on the valid range produce identical outputs.
Second, an output pixel whose sample point lies fully outside the source
(all 4 taps out of range, e.g. the off-canvas region of a partly
off-canvas pose) is exactly 0. -/
theorem claim_C9 :
    (∀ (h w : ℕ) (img img2 : ℤ → ℤ → ℚ) (z : Pose) (outH outW : ℕ)
        (i j : ℤ),
        (∀ r c : ℤ, 0 ≤ r → r < (h : ℤ) → 0 ≤ c → c < (w : ℤ) →
          img r c = img2 r c) →
        spatial_transformer h w img z outH outW i j =
          spatial_transformer h w img2 z outH outW i j) ∧
      (∀ (h w : ℕ) (img : ℤ → ℤ → ℚ) (z : Pose) (outH outW : ℕ) (i j : ℤ),
        (sampleX w outW z j ≤ -1 ∨ (w : ℚ) ≤ sampleX w outW z j ∨
            sampleY h outH z i ≤ -1 ∨ (h : ℚ) ≤ sampleY h outH z i) →
        spatial_transformer h w img z outH outW i j = 0) := by
  constructor
  · intro h w img img2 z outH outW i j hagree
    rw [spatial_transformer_eval, spatial_transformer_eval]
    unfold bilinear
    rw [tap_congr h w img img2 _ _ hagree, tap_congr h w img img2 _ _ hagree,
      tap_congr h w img img2 _ _ hagree, tap_congr h w img img2 _ _ hagree]
  · intro h w img z outH outW i j hoob
    rw [spatial_transformer_eval]
    exact bilinear_oob h w img _ _ hoob

theorem claim_C9_witness :
    spatial_transformer 2 2 probeA (Pose.mk 1 0 0) 2 2 0 0 =
        spatial_transformer 2 2 probeB (Pose.mk 1 0 0) 2 2 0 0 ∧
      spatial_transformer 4 4 probeA (Pose.mk 1 5 0) 4 4 0 0 = 0 :=
  ⟨claim_C9.1 2 2 probeA probeB (Pose.mk 1 0 0) 2 2 0 0
      (fun r c h1 h2 h3 h4 => by
        unfold probeA probeB
        rw [if_pos ⟨h1, h2, h3, h4⟩, if_pos ⟨h1, h2, h3, h4⟩]),
    claim_C9.2 4 4 probeA (Pose.mk 1 5 0) 4 4 0 0
      (Or.inr (Or.inl (by norm_num [sampleX, unnormalize, normCoord])))⟩

theorem inSliceB_bounds {n : ℕ} {lo hi i : ℤ} (h : inSliceB n lo hi i = true) :
    0 ≤ i ∧ i < (n : ℤ) := by
  simp only [inSliceB, Bool.and_eq_true, decide_eq_true_eq, resolveIdx] at h
  rcases h with ⟨h1, h2⟩
  split_ifs at h1 h2 <;> omega

theorem inSliceB_true {n : ℕ} {lo hi i : ℤ} :
    inSliceB n lo hi i = true ↔ resolveIdx n lo ≤ i ∧ i < resolveIdx n hi := by
  simp [inSliceB]

theorem resolveIdx_of_nonneg {n : ℕ} {v : ℤ} (hv : 0 ≤ v) :
    resolveIdx n v = min v (n : ℤ) := by
  unfold resolveIdx
  rw [if_neg (by omega)]

theorem drawnAt_true {h w : ℕ} {bb : Box} {r c : ℤ} :
    drawnAt h w bb r c = true ↔
      ((0 ≤ bb.y1 ∧ bb.y1 ≤ (h : ℤ) - 1 ∧ r = bb.y1 ∧
          inSliceB w (max bb.x1 0) (min bb.x2 ((h : ℤ) - 1)) c = true) ∨
        (0 ≤ bb.y2 - 1 ∧ bb.y2 - 1 ≤ (h : ℤ) - 1 ∧ r = bb.y2 - 1 ∧
          inSliceB w (max bb.x1 0) (min bb.x2 ((h : ℤ) - 1)) c = true) ∨
        (0 ≤ bb.x1 ∧ bb.x1 ≤ (h : ℤ) - 1 ∧ c = bb.x1 ∧
          inSliceB h (max bb.y1 0) (min bb.y2 ((h : ℤ) - 1)) r = true) ∨
        (0 ≤ bb.x2 - 1 ∧ bb.x2 - 1 ≤ (h : ℤ) - 1 ∧ c = bb.x2 - 1 ∧
          inSliceB h (max bb.y1 0) (min bb.y2 ((h : ℤ) - 1)) r = true)) := by
  unfold drawnAt
  simp only [Bool.or_eq_true, Bool.and_eq_true, decide_eq_true_eq, and_assoc,
    or_assoc]

theorem add_bounding_box_ok (img : Image) (z : Pose) (color : ℕ → ℚ)
    (hb : img.isFourD = true → img.batch = 1)
    (hc : img.channels = 1 ∨ img.channels = 3)
    (hsq : img.width = img.height) :
    add_bounding_box img z color =
      Except.ok (Image.mk img.isFourD
        (if img.isFourD = true then img.batch else 1) 3 img.height img.width
        (fun b ch r c =>
          if drawnAt img.height img.width (boundingBox z (img.height : ℚ) 1)
              r c
          then color ch else (widen img).pix b ch r c)) := by
  have h1 : ¬(img.isFourD = true ∧ img.batch ≠ 1) := by
    intro hcon
    exact hcon.2 (hb hcon.1)
  have h2 : ¬(img.channels ≠ 1 ∧ img.channels ≠ 3) := by
    rcases hc with hc | hc
    · intro hcon; exact hcon.1 hc
    · intro hcon; exact hcon.2 hc
  have h3 : ¬((0 ≤ (boundingBox z (img.height : ℚ) 1).x1 ∧
        (boundingBox z (img.height : ℚ) 1).x1 ≤ (img.height : ℤ) - 1 ∧
        ¬(boundingBox z (img.height : ℚ) 1).x1 < (img.width : ℤ)) ∨
      (0 ≤ (boundingBox z (img.height : ℚ) 1).x2 - 1 ∧
        (boundingBox z (img.height : ℚ) 1).x2 - 1 ≤ (img.height : ℤ) - 1 ∧
        ¬(boundingBox z (img.height : ℚ) 1).x2 - 1 < (img.width : ℤ))) := by
    rw [hsq]
    omega
  unfold add_bounding_box
  rw [if_neg h1, if_neg h2, if_neg h3]

/-- Claim C4 (amended): under valid shape preconditions (batch 1 if 4-d,
1 or 3 channels, square canvas) `add_bounding_box` never fails, and every
pixel it changes is in bounds and lies on one of the four lines `row y1`,
`row y2-1`, `column x1`, `column x2-1` of the computed box.  Moreover,
when `x2 ≥ 0` and `y2 ≥ 0`, every changed pixel lies on the in-bounds part
of the box's border.  The original claim — that drawing is always confined
to the border clipped to the canvas — fails for boxes with a negative far
coordinate because a negative Python slice stop counts from the end of the
axis (`claim_C4_cex`). -/
theorem claim_C4 (img : Image) (z : Pose) (color : ℕ → ℚ)
    (hb : img.isFourD = true → img.batch = 1)
    (hc : img.channels = 1 ∨ img.channels = 3)
    (hsq : img.width = img.height) :
    ∃ out, add_bounding_box img z color = Except.ok out ∧
      (∀ (b ch : ℕ) (r c : ℤ),
        out.pix b ch r c ≠ img.pix b (ch % img.channels) r c →
        (0 ≤ r ∧ r < (img.height : ℤ) ∧ 0 ≤ c ∧ c < (img.height : ℤ)) ∧
          (r = (boundingBox z (img.height : ℚ) 1).y1 ∨
            r = (boundingBox z (img.height : ℚ) 1).y2 - 1 ∨
            c = (boundingBox z (img.height : ℚ) 1).x1 ∨
            c = (boundingBox z (img.height : ℚ) 1).x2 - 1)) ∧
      (0 ≤ (boundingBox z (img.height : ℚ) 1).x2 →
        0 ≤ (boundingBox z (img.height : ℚ) 1).y2 →
        ∀ (b ch : ℕ) (r c : ℤ),
          out.pix b ch r c ≠ img.pix b (ch % img.channels) r c →
          onClippedBorder (img.height : ℤ) (boundingBox z (img.height : ℚ) 1)
            r c) := by
  refine ⟨Image.mk img.isFourD (if img.isFourD = true then img.batch else 1) 3
      img.height img.width
      (fun b ch r c =>
        if drawnAt img.height img.width (boundingBox z (img.height : ℚ) 1) r c
        then color ch else (widen img).pix b ch r c),
    add_bounding_box_ok img z color hb hc hsq, ?_, ?_⟩
  · intro b ch r c hne
    dsimp only [widen] at hne
    have hdrawn : drawnAt img.height img.width
        (boundingBox z (img.height : ℚ) 1) r c = true := by
      by_contra hq
      rw [Bool.not_eq_true] at hq
      rw [hq] at hne
      simp at hne
    have hwh : (img.width : ℤ) = (img.height : ℤ) := by omega
    rw [drawnAt_true] at hdrawn
    rcases hdrawn with ⟨hg1, hg2, hg3, hsl⟩ | ⟨hg1, hg2, hg3, hsl⟩ |
      ⟨hg1, hg2, hg3, hsl⟩ | ⟨hg1, hg2, hg3, hsl⟩
    · have hb1 := inSliceB_bounds hsl
      refine ⟨⟨by omega, by omega, by omega, by omega⟩, Or.inl hg3⟩
    · have hb1 := inSliceB_bounds hsl
      refine ⟨⟨by omega, by omega, by omega, by omega⟩, Or.inr (Or.inl hg3)⟩
    · have hb1 := inSliceB_bounds hsl
      refine ⟨⟨by omega, by omega, by omega, by omega⟩,
        Or.inr (Or.inr (Or.inl hg3))⟩
    · have hb1 := inSliceB_bounds hsl
      refine ⟨⟨by omega, by omega, by omega, by omega⟩,
        Or.inr (Or.inr (Or.inr hg3))⟩
  · intro hx2 hy2 b ch r c hne
    dsimp only [widen] at hne
    have hdrawn : drawnAt img.height img.width
        (boundingBox z (img.height : ℚ) 1) r c = true := by
      by_contra hq
      rw [Bool.not_eq_true] at hq
      rw [hq] at hne
      simp at hne
    unfold onClippedBorder
    have hwh : (img.width : ℤ) = (img.height : ℤ) := by omega
    rw [drawnAt_true] at hdrawn
    rcases hdrawn with ⟨hg1, hg2, hg3, hsl⟩ | ⟨hg1, hg2, hg3, hsl⟩ |
      ⟨hg1, hg2, hg3, hsl⟩ | ⟨hg1, hg2, hg3, hsl⟩ <;>
      rw [inSliceB_true, resolveIdx_of_nonneg (by omega),
        resolveIdx_of_nonneg (by omega)] at hsl <;>
      omega

theorem claim_C4_witness :
    (imgZero4.isFourD = true → imgZero4.batch = 1) ∧
      (imgZero4.channels = 1 ∨ imgZero4.channels = 3) ∧
      imgZero4.width = imgZero4.height ∧
      (∃ out,
        add_bounding_box imgZero4 (Pose.mk 1 0 0) (fun _ => 1) =
            Except.ok out ∧
          (∀ (b ch : ℕ) (r c : ℤ),
            out.pix b ch r c ≠
              imgZero4.pix b (ch % imgZero4.channels) r c →
            (0 ≤ r ∧ r < (imgZero4.height : ℤ) ∧ 0 ≤ c ∧
                c < (imgZero4.height : ℤ)) ∧
              (r = (boundingBox (Pose.mk 1 0 0) (imgZero4.height : ℚ) 1).y1 ∨
                r = (boundingBox (Pose.mk 1 0 0) (imgZero4.height : ℚ) 1).y2
                    - 1 ∨
                c = (boundingBox (Pose.mk 1 0 0) (imgZero4.height : ℚ) 1).x1 ∨
                c = (boundingBox (Pose.mk 1 0 0) (imgZero4.height : ℚ) 1).x2
                    - 1)) ∧
          (0 ≤ (boundingBox (Pose.mk 1 0 0) (imgZero4.height : ℚ) 1).x2 →
            0 ≤ (boundingBox (Pose.mk 1 0 0) (imgZero4.height : ℚ) 1).y2 →
            ∀ (b ch : ℕ) (r c : ℤ),
              out.pix b ch r c ≠
                imgZero4.pix b (ch % imgZero4.channels) r c →
              onClippedBorder (imgZero4.height : ℤ)
                (boundingBox (Pose.mk 1 0 0) (imgZero4.height : ℚ) 1) r c)) :=
  ⟨by intro h; exact absurd h (by decide), Or.inl rfl, rfl,
    claim_C4 imgZero4 (Pose.mk 1 0 0) (fun _ => 1)
      (by intro h; exact absurd h (by decide)) (Or.inl rfl) rfl⟩

/-- Claim C4 counterexample: pose `(1, -1, 3)` on a 48x48 canvas yields the
box `(x1, x2, y1, y2) = (23, 73, -73, -23)`, whose border lies entirely
off-canvas in y.  Yet `add_bounding_box` paints pixel `(row 0, column 23)`:
in `img[0, :, max(y1,0):min(y2,y_max), x1]` the negative stop `-23` counts
from the end of the axis (rows `0..24`), so drawing is not confined to the
box border clipped to the canvas. -/
theorem claim_C4_cex :
    (add_bounding_box imgZero48 poseAbove (fun _ => 1)).isOk = true ∧
      (theImage (add_bounding_box imgZero48 poseAbove (fun _ => 1))).pix
          0 0 0 23 = 1 ∧
      imgZero48.pix 0 (0 % imgZero48.channels) 0 23 = 0 ∧
      ¬onClippedBorder (imgZero48.height : ℤ)
        (boundingBox poseAbove (imgZero48.height : ℚ) 1) 0 23 := by
  have hbox : boundingBox poseAbove ((48 : ℕ) : ℚ) 1 =
      Box.mk 23 73 (-73) (-23) := by
    norm_num [boundingBox, pySort2, pyRound, poseAbove]
  have hres := add_bounding_box_ok imgZero48 poseAbove (fun _ => 1)
    (by intro h; exact absurd h (by decide)) (Or.inl rfl) rfl
  refine ⟨by rw [hres]; rfl, ?_, rfl, ?_⟩
  · rw [hres]
    simp only [theImage]
    show (if drawnAt imgZero48.height imgZero48.width
        (boundingBox poseAbove (imgZero48.height : ℚ) 1) 0 23 = true
      then (1 : ℚ) else (widen imgZero48).pix 0 0 0 23) = 1
    simp only [imgZero48]
    rw [hbox]
    rw [if_pos (by decide)]
  · simp only [imgZero48]
    rw [hbox]
    decide

/-- Claim C8 counterexample: a 1x1 image warped onto a 2x2 canvas with pose
`(2, 0, 0)` — the scale exactly equals the output/input resolution ratio
`2/1` and is nonzero — comes back as `1/4`, not the original value `1`:
with this translation the sampling grid falls on half-integer pixel
coordinates and the double bilinear blur does not cancel. -/
theorem claim_C8_cex :
    (Pose.mk 2 0 0).s = ((2 : ℕ) : ℚ) / ((1 : ℕ) : ℚ) ∧
      (Pose.mk 2 0 0).s ≠ 0 ∧
      SpatialTransformer.inverse (SpatialTransformer.mk 1 1 2 2)
          (SpatialTransformer.forward (SpatialTransformer.mk 1 1 2 2)
            (fun _ _ => 1) (Pose.mk 2 0 0))
          (Pose.mk 2 0 0) 0 0 = 1 / 4 ∧
      (1 / 4 : ℚ) ≠ (fun _ _ => (1 : ℚ)) 0 0 := by
  refine ⟨by norm_num, by norm_num, ?_, by norm_num⟩
  have hfl0 : ⌊(1 : ℚ) / 2⌋ = 0 := by rw [Int.floor_eq_iff]; norm_num
  have hfl1 : ⌊(-1 : ℚ) / 2⌋ = -1 := by rw [Int.floor_eq_iff]; norm_num
  have hfv : ∀ i j : ℤ, 0 ≤ i → i < 2 → 0 ≤ j → j < 2 →
      SpatialTransformer.forward (SpatialTransformer.mk 1 1 2 2)
        (fun _ _ => 1) (Pose.mk 2 0 0) i j = 1 / 4 := by
    intro i j hi0 hi1 hj0 hj1
    unfold SpatialTransformer.forward
    rw [spatial_transformer_eval]
    have hsy : ∀ k : ℤ, 0 ≤ k → k < 2 →
        sampleY 1 2 (Pose.mk 2 0 0) k =
          (if k = 0 then (-1 : ℚ) / 2 else (1 : ℚ) / 2) := by
      intro k hk0 hk1
      interval_cases k <;> norm_num [sampleY, unnormalize, normCoord]
    have hsx : ∀ k : ℤ, 0 ≤ k → k < 2 →
        sampleX 1 2 (Pose.mk 2 0 0) k =
          (if k = 0 then (-1 : ℚ) / 2 else (1 : ℚ) / 2) := by
      intro k hk0 hk1
      interval_cases k <;> norm_num [sampleX, unnormalize, normCoord]
    rw [hsy i hi0 hi1, hsx j hj0 hj1]
    interval_cases i <;> interval_cases j <;>
      · unfold bilinear
        norm_num [hfl0, hfl1, tap]
  unfold SpatialTransformer.inverse
  rw [spatial_transformer_eval]
  have hsy : sampleY 2 1 (invert_z_where (Pose.mk 2 0 0)) 0 = (1 : ℚ) / 2 := by
    norm_num [sampleY, unnormalize, normCoord, invert_z_where]
  have hsx : sampleX 2 1 (invert_z_where (Pose.mk 2 0 0)) 0 = (1 : ℚ) / 2 := by
    norm_num [sampleX, unnormalize, normCoord, invert_z_where]
  rw [hsy, hsx]
  unfold bilinear
  rw [hfl0]
  norm_num [tap, hfv]

theorem boxes_eval_ok : add_bounding_boxes imgZero4 zwOne defaultColor 0 =
    Except.ok (widen imgZero4) := by
  norm_num [add_bounding_boxes, drawLoop, pyRound, zwShape1, zwOne,
    imgShape, targetShape, imgZero4, widen]

theorem batch_eval_ok :
    batch_add_bounding_boxes batchOne zbOne (fun _ => 0) none none =
      Except.ok [widen (imageOf batchOne 0)] := by
  norm_num [batch_add_bounding_boxes, annotateUpTo, add_bounding_boxes,
    drawLoop, pyRound, zwShape1, stackShape, imgShape, targetShape, batchOne,
    zbOne, rowZW, imageOf, widen, Option.getD_none]

theorem claim_C6_witness :
    ((add_bounding_box imgZero4 zTest defaultColor).isOk = true ∧
        (theImage (add_bounding_box imgZero4 zTest defaultColor)).channels =
          3) ∧
      ((add_bounding_boxes imgZero4 zwOne defaultColor 0).isOk = true ∧
        (theImage (add_bounding_boxes imgZero4 zwOne defaultColor 0)).channels
          = 3) ∧
      (imgZero4.channels = 1 ∧ pyRound 0 = 0 ∧
        (theImage (add_bounding_boxes imgZero4 zwOne defaultColor 0)).pix
            0 2 1 1 = imgZero4.pix 0 0 1 1) ∧
      ((batch_add_bounding_boxes batchOne zbOne (fun _ => 0) none
          none).isOk = true ∧
        ∀ im ∈ theList (batch_add_bounding_boxes batchOne zbOne (fun _ => 0)
            none none),
          im.channels = 3) := by
  have hok1 : (add_bounding_box imgZero4 zTest defaultColor).isOk = true := by
    rw [add_bounding_box_ok imgZero4 zTest defaultColor
      (by intro hh; exact absurd hh (by decide)) (Or.inl rfl) rfl]
    rfl
  have hok2 : (add_bounding_boxes imgZero4 zwOne defaultColor 0).isOk =
      true := by
    rw [boxes_eval_ok]
    rfl
  have hok4 : (batch_add_bounding_boxes batchOne zbOne (fun _ => 0) none
      none).isOk = true := by
    rw [batch_eval_ok]
    rfl
  exact ⟨⟨hok1, claim_C6.1 _ _ _ hok1⟩,
    ⟨hok2, claim_C6.2.1 _ _ _ _ hok2⟩,
    ⟨rfl, pyRound_zero, claim_C6.2.2.1 _ _ _ _ rfl pyRound_zero hok2 0 2 1 1⟩,
    ⟨hok4, claim_C6.2.2.2 _ _ _ _ _ hok4⟩⟩

/-- Claim C7: the heap model of `add_bounding_box` (the function copies its
input with `to_np(img).copy()` and only writes to the copy): a successful
call returns a reference distinct from the input reference, the store grows
by exactly the newly allocated output array, and every previously existing
array — in particular the caller's input image — is unchanged. -/
theorem claim_C7 (st : Store) (ref : ℕ) (z : Pose) (c : ℕ → ℚ)
    (res : Store × ℕ)
    (h : add_bounding_box_alloc st ref z c = Except.ok res) :
    res.2 ≠ ref ∧ res.1.arrs.length = st.arrs.length + 1 ∧
      (∀ i, i < st.arrs.length → res.1.arrs.get? i = st.arrs.get? i) := by
  unfold add_bounding_box_alloc at h
  cases hg : st.arrs.get? ref with
  | none => rw [hg] at h; exact Except.noConfusion h
  | some img =>
    simp only [hg] at h
    cases hab : add_bounding_box img z c with
    | error e => rw [hab] at h; exact Except.noConfusion h
    | ok out =>
      simp only [hab] at h
      injection h with h'
      have href : ref < st.arrs.length := by
        by_contra hcon
        rw [List.get?_eq_none.mpr (by omega)] at hg
        exact Option.noConfusion hg
      refine ⟨?_, ?_, ?_⟩
      · rw [← h']
        show st.arrs.length ≠ ref
        omega
      · rw [← h']
        simp
      · intro i hi
        rw [← h']
        exact List.get?_append hi

theorem alloc_eval_ok :
    add_bounding_box_alloc (Store.mk [imgZero4]) 0 zTest defaultColor =
      Except.ok c7res := by
  have hv := add_bounding_box_ok imgZero4 zTest defaultColor
    (by intro hh; exact absurd hh (by decide)) (Or.inl rfl) rfl
  unfold add_bounding_box_alloc
  simp only [show (Store.mk [imgZero4]).arrs.get? 0 = some imgZero4 from rfl,
    hv, c7res, theImage]
  rfl

theorem claim_C7_witness :
    c7res.2 ≠ 0 ∧
      c7res.1.arrs.length = (Store.mk [imgZero4]).arrs.length + 1 ∧
      (∀ i, i < (Store.mk [imgZero4]).arrs.length →
        c7res.1.arrs.get? i = (Store.mk [imgZero4]).arrs.get? i) :=
  claim_C7 (Store.mk [imgZero4]) 0 zTest defaultColor c7res alloc_eval_ok

/-- Claim C10: supplying an `n_img` different from the batch size always
makes `batch_add_bounding_boxes` fail: with `n_img` larger, indexing past
the batch fails; with `n_img` smaller, the final output-shape assertion
compares the stacked shape `(n_img, 3, H, W)` against the full-batch target
`(n, 3, H, W)` and fails.  Hence `n_img` can never successfully restrict
annotation to a strict subset of the batch. -/
theorem claim_C10 (bs : Batch4) (zb : ZBatch) (no : ℕ → ℚ)
    (col : Option (ℕ → ℚ)) (k : ℕ) (hk : k ≠ bs.n) :
    (batch_add_bounding_boxes bs zb no col (some k)).isOk = false := by
  unfold batch_add_bounding_boxes
  split_ifs
  · rfl
  · rfl
  · simp only [Option.getD_some]
    split
    · rfl
    · rename_i outs heq
      have hlen := annotateUpTo_length heq
      cases outs with
      | nil =>
        rfl
      | cons i rest =>
        simp only [stackShape]
        split_ifs with hall
        · dsimp only
          rw [if_neg]
          · rfl
          · intro hcon
            simp only [List.cons.injEq] at hcon
            have hc1 := hcon.1
            simp only [List.length_cons] at hlen
            omega
        · rfl

theorem claim_C10_witness :
    (1 : ℕ) ≠ batchTwo.n ∧
      (batch_add_bounding_boxes batchTwo zbTwo (fun _ => 0) none
        (some 1)).isOk = false :=
  ⟨by decide, claim_C10 batchTwo zbTwo (fun _ => 0) none 1 (by decide)⟩


end STCore
